import Mathlib

/-!
Shallow embedding of the core of `crossfont` (`src/lib.rs`): the quantized
`Size` type, the `FontKey` generator, the descriptor and key types, and the
default rasterized glyph.

Floating-point remarks: every `f32` operation that the embedded code performs
is exact in IEEE-754 binary floating point — multiplication and division by
the constant factor `2.0` only shift the exponent, and every `i16` is exactly
representable in `f32` — so the rational-number model below is faithful for
all finite inputs.  The `as i16` cast in Rust rounds toward zero and
saturates at the type bounds, which `satCast16` and `truncQ` model.  The
`i16` multiplication in `impl Mul` wraps on overflow (release-profile
semantics), which `wrap16` models.
-/

/-- The `i16` range of Rust: `-32768 ≤ n ≤ 32767`. -/
def inRange16 (n : Int) : Prop := -32768 ≤ n ∧ n ≤ 32767

instance (n : Int) : Decidable (inRange16 n) := by
  unfold inRange16; infer_instance

/-- Saturating clamp into the `i16` range, as performed both by
`i16::saturating_add` on its mathematical sum and by Rust float-to-int
`as i16` casts on out-of-range values. -/
def satCast16 (n : Int) : Int := max (-32768) (min 32767 n)

/-- Two's-complement wrap into the `i16` range: the result of `i16`
multiplication when the mathematical product overflows. -/
def wrap16 (n : Int) : Int := (n + 32768) % 65536 - 32768

/-- Round a rational toward zero: the rounding direction of Rust
float-to-integer `as` casts. -/
def truncQ (q : ℚ) : Int := if 0 ≤ q then ⌊q⌋ else ⌈q⌉

/-- `pub struct Size(i16)` — font size stored as an integer count of
half-points. -/
structure Size where
  val : Int
deriving DecidableEq, Repr

/-- `Size::factor()`, the scale factor between `Size` and point size: `2.0`. -/
def Size.factor : ℚ := 2

/-- `Size::new(size: f32) -> Size { Size((size * Size::factor()) as i16) }`. -/
def Size.new (size : ℚ) : Size := ⟨satCast16 (truncQ (size * Size.factor))⟩

/-- `Size::as_f32_pts(self) -> f32 { f32::from(self.0) / Size::factor() }`. -/
def Size.as_f32_pts (s : Size) : ℚ := (s.val : ℚ) / Size.factor

/-- `impl<T: Into<Size>> Add<T> for Size`:
`Size(self.0.saturating_add(other.into().0))`, here for an operand that is
already a `Size`. -/
def Size.add (s t : Size) : Size := ⟨satCast16 (s.val + t.val)⟩

/-- `impl<T: Into<Size>> Mul<T> for Size`: `Size(self.0 * other.into().0)`,
here for an operand that is already a `Size`; plain `i16` multiplication,
with no saturation. -/
def Size.mul (s t : Size) : Size := ⟨wrap16 (s.val * t.val)⟩

/-- `impl From<f32> for Size { fn from(float: f32) -> Size { Size::new(float) } }` —
the implicit conversion that the `Into<Size>` bounds of `Add` and `Mul` use. -/
def Size.fromF32 (f : ℚ) : Size := Size.new f

/-- `size + float`, going through the `Into<Size>` conversion of `Add`. -/
def Size.addF32 (s : Size) (f : ℚ) : Size := s.add (Size.fromF32 f)

/-- `size * float`, going through the `Into<Size>` conversion of `Mul`. -/
def Size.mulF32 (s : Size) (f : ℚ) : Size := s.mul (Size.fromF32 f)

/-- `pub struct FontKey { token: u32 }`. -/
structure FontKey where
  token : Nat
deriving DecidableEq, Repr

/-- The modulus of `u32`, the type of `FontKey.token`. -/
def FontKey.U32MOD : Nat := 4294967296

/-- The modulus of `usize` (64-bit targets), the type of the shared atomic
counter `TOKEN`. -/
def FontKey.USIZEMOD : Nat := 18446744073709551616

/-- One call of `FontKey::next()`:
`FontKey { token: TOKEN.fetch_add(1, Ordering::SeqCst) as _ }`.
Takes the current counter value, returns the key built from it (cast from
`usize` to `u32`) together with the incremented counter (atomic `fetch_add`
wraps on overflow). -/
def FontKey.next (c : Nat) : FontKey × Nat := (⟨c % FontKey.U32MOD⟩, (c + 1) % FontKey.USIZEMOD)

/-- The counter state after `n` calls to `FontKey::next()`, starting from the
initial value `AtomicUsize::new(0)`. -/
def FontKey.counterAfter : Nat → Nat
  | 0 => 0
  | n + 1 => (FontKey.next (FontKey.counterAfter n)).2

/-- The key returned by call number `i` (0-indexed, so the `(i+1)`-th call)
in a sequence of calls to `FontKey::next()` starting from a fresh counter. -/
def FontKey.nthKey (i : Nat) : FontKey := (FontKey.next (FontKey.counterAfter i)).1

/-- `pub enum Slant` with `#[derive(PartialEq, Eq)]`. -/
inductive Slant
  | normal
  | italic
  | oblique
deriving DecidableEq, Repr

/-- `pub enum Weight` with `#[derive(PartialEq, Eq)]`. -/
inductive Weight
  | normal
  | bold
deriving DecidableEq, Repr

/-- The `#[derive(PartialEq)]` comparison of `Slant`: same variant. -/
def Slant.eqb : Slant → Slant → Bool
  | .normal, .normal => true
  | .italic, .italic => true
  | .oblique, .oblique => true
  | _, _ => false

/-- The `#[derive(PartialEq)]` comparison of `Weight`: same variant. -/
def Weight.eqb : Weight → Weight → Bool
  | .normal, .normal => true
  | .bold, .bold => true
  | _, _ => false

/-- `pub enum Style { Specific(String), Description { slant, weight } }`. -/
inductive Style
  | specific (s : String)
  | description (slant : Slant) (weight : Weight)
deriving DecidableEq, Repr

/-- The `#[derive(PartialEq)]` comparison of `Style`: same variant and equal
payloads; distinct variants never compare equal. -/
def Style.eqb : Style → Style → Bool
  | .specific a, .specific b => a == b
  | .description s1 w1, .description s2 w2 => Slant.eqb s1 s2 && Weight.eqb w1 w2
  | _, _ => false

/-- `pub struct FontDesc { name: String, style: Style }`. -/
structure FontDesc where
  name : String
  style : Style
deriving DecidableEq, Repr

/-- The `#[derive(PartialEq)]` comparison of `FontDesc`: field-wise. -/
def FontDesc.eqb (a b : FontDesc) : Bool := a.name == b.name && Style.eqb a.style b.style

/-- The `#[derive(PartialEq)]` comparison of `FontKey`: token-wise. -/
def FontKey.eqb (a b : FontKey) : Bool := a.token == b.token

/-- The `#[derive(PartialEq)]` comparison of `Size`: on the stored `i16`. -/
def Size.eqb (a b : Size) : Bool := a.val == b.val

/-- `pub struct GlyphKey { character: char, font_key: FontKey, size: Size }`. -/
structure GlyphKey where
  character : Char
  font_key : FontKey
  size : Size
deriving DecidableEq, Repr

/-- The `#[derive(PartialEq)]` comparison of `GlyphKey`: field-wise on all
three fields. -/
def GlyphKey.eqb (a b : GlyphKey) : Bool :=
  a.character == b.character && FontKey.eqb a.font_key b.font_key && Size.eqb a.size b.size

/-- `pub enum BitmapBuffer { Rgb(Vec<u8>), Rgba(Vec<u8>) }`. -/
inductive BitmapBuffer
  | rgb (bytes : List Nat)
  | rgba (bytes : List Nat)
deriving DecidableEq, Repr

/-- `pub struct RasterizedGlyph`. -/
structure RasterizedGlyph where
  character : Char
  width : Int
  height : Int
  top : Int
  left : Int
  advance : Int × Int
  buffer : BitmapBuffer
deriving DecidableEq, Repr

/-- `impl Default for RasterizedGlyph`: a space character with zero
dimensions, zero bearings, zero advance and an empty `Rgb` buffer. -/
def RasterizedGlyph.default : RasterizedGlyph :=
  ⟨' ', 0, 0, 0, 0, (0, 0), BitmapBuffer.rgb []⟩

/-! ## Helper lemmas -/

theorem satCast16_of_inRange {n : Int} (h : inRange16 n) : satCast16 n = n := by
  obtain ⟨h1, h2⟩ := h
  unfold satCast16
  rw [min_eq_right h2, max_eq_right h1]

theorem satCast16_high {n : Int} (h : 32767 ≤ n) : satCast16 n = 32767 := by
  unfold satCast16
  rw [min_eq_left h, max_eq_right (by norm_num)]

theorem wrap16_of_inRange {n : Int} (h : inRange16 n) : wrap16 n = n := by
  obtain ⟨h1, h2⟩ := h
  unfold wrap16
  omega

theorem truncQ_intCast (n : Int) : truncQ (n : ℚ) = n := by
  unfold truncQ
  split
  · exact Int.floor_intCast n
  · exact Int.ceil_intCast n

theorem abs_truncQ_sub_lt (q : ℚ) : |(truncQ q : ℚ) - q| < 1 := by
  unfold truncQ
  split
  · rw [abs_sub_comm, abs_of_nonneg (by linarith [Int.floor_le q])]
    linarith [Int.lt_floor_add_one q]
  · rw [abs_of_nonneg (by linarith [Int.le_ceil q])]
    linarith [Int.ceil_lt_add_one q]

theorem truncQ_inRange (q : ℚ) (h1 : -32768 ≤ q) (h2 : q ≤ 32767) :
    inRange16 (truncQ q) := by
  unfold truncQ inRange16
  split
  · constructor
    · have : (0 : Int) ≤ ⌊q⌋ := Int.floor_nonneg.mpr (by assumption)
      omega
    · have : (⌊q⌋ : ℚ) ≤ 32767 := le_trans (Int.floor_le q) h2
      exact_mod_cast this
  · constructor
    · have : (-32768 : ℚ) ≤ (⌈q⌉ : ℚ) := le_trans h1 (Int.le_ceil q)
      exact_mod_cast this
    · have hq : q ≤ 0 := le_of_not_le (by assumption)
      have : ⌈q⌉ ≤ (0 : Int) := Int.ceil_le.mpr (by exact_mod_cast hq)
      omega

theorem slant_eqb_iff (a b : Slant) : Slant.eqb a b = true ↔ a = b := by
  cases a <;> cases b <;> simp [Slant.eqb]

theorem weight_eqb_iff (a b : Weight) : Weight.eqb a b = true ↔ a = b := by
  cases a <;> cases b <;> simp [Weight.eqb]

theorem style_eqb_iff (a b : Style) : Style.eqb a b = true ↔ a = b := by
  cases a <;> cases b <;>
    simp [Style.eqb, slant_eqb_iff, weight_eqb_iff, beq_iff_eq]

theorem FontKey.counterAfter_eq (n : Nat) :
    FontKey.counterAfter n = n % FontKey.USIZEMOD := by
  induction n with
  | zero => rfl
  | succ n ih =>
    show (FontKey.next (FontKey.counterAfter n)).2 = (n + 1) % FontKey.USIZEMOD
    rw [ih]
    show (n % FontKey.USIZEMOD + 1) % FontKey.USIZEMOD = (n + 1) % FontKey.USIZEMOD
    exact Nat.mod_add_mod n FontKey.USIZEMOD 1

theorem FontKey.nthKey_token (i : Nat) :
    (FontKey.nthKey i).token = i % FontKey.U32MOD := by
  show (FontKey.next (FontKey.counterAfter i)).1.token = i % FontKey.U32MOD
  rw [FontKey.counterAfter_eq]
  show i % FontKey.USIZEMOD % FontKey.U32MOD = i % FontKey.U32MOD
  exact Nat.mod_mod_of_dvd i ⟨4294967296, by norm_num [FontKey.USIZEMOD, FontKey.U32MOD]⟩

/-! ## Claim theorems -/

/-- C1 (counterexample): the claim fails as stated for unboundedly many
calls: because `FontKey::next` casts the `usize` counter to the `u32` field
`token`, call number 4294967297 (0-indexed call 4294967296) returns the same
token as the first call, so the tokens of a sequence of `N` calls are not
`N` distinct values and the `i`-th call does not return `i - 1` once
`i - 1` reaches `2^32`. -/
theorem fontKey_token_collision :
    (FontKey.nthKey 4294967296).token = (FontKey.nthKey 0).token ∧
    (4294967296 : Nat) ≠ 0 := by
  constructor
  · rw [FontKey.nthKey_token, FontKey.nthKey_token]
    norm_num [FontKey.U32MOD]
  · norm_num

/-- C1 (amended): for any sequence of at most `2^32` calls to
`FontKey::next` starting from the fresh counter, call number `i` (0-indexed)
returns exactly token `i`, the tokens in issuance order are strictly
increasing, and the issued keys are pairwise distinct. -/
theorem fontKey_tokens_strictly_increasing (i j : Nat) (hij : i < j)
    (hj : j < FontKey.U32MOD) :
    (FontKey.nthKey i).token = i ∧ (FontKey.nthKey j).token = j ∧
    (FontKey.nthKey i).token < (FontKey.nthKey j).token ∧
    FontKey.nthKey i ≠ FontKey.nthKey j := by
  have hi : i < FontKey.U32MOD := lt_trans hij hj
  have e1 : (FontKey.nthKey i).token = i := by
    rw [FontKey.nthKey_token]; exact Nat.mod_eq_of_lt hi
  have e2 : (FontKey.nthKey j).token = j := by
    rw [FontKey.nthKey_token]; exact Nat.mod_eq_of_lt hj
  refine ⟨e1, e2, ?_, ?_⟩
  · rw [e1, e2]; exact hij
  · intro h
    rw [h, e2] at e1
    exact absurd e1 (Nat.ne_of_lt hij).symm

/-- Witness for the amended C1 theorem at the concrete calls 0 and 1. -/
theorem fontKey_tokens_strictly_increasing_witness :
    (FontKey.nthKey 0).token = 0 ∧ (FontKey.nthKey 1).token = 1 ∧
    (FontKey.nthKey 0).token < (FontKey.nthKey 1).token ∧
    FontKey.nthKey 0 ≠ FontKey.nthKey 1 :=
  fontKey_tokens_strictly_increasing 0 1 (by norm_num)
    (by norm_num [FontKey.U32MOD])

/-- C3: multiplication of sizes goes through the same `Into<Size>`
conversion as addition but applies no saturation: the in-range operands
`Size(256)` (which is also what the float operand `128.0` converts to)
multiply to the out-of-range raw product `65536`, and the result is the
wrapped value `Size(0)`, not the clamped value `Size(32767)` that
saturating the product at the `i16` bounds — as addition does with its
sum — would produce. -/
theorem size_mul_does_not_saturate :
    Size.mulF32 ⟨256⟩ 128 = Size.mul ⟨256⟩ (Size.new 128) ∧
    Size.new 128 = ⟨256⟩ ∧
    inRange16 256 ∧
    32767 < (256 : Int) * 256 ∧
    Size.mul ⟨256⟩ ⟨256⟩ = ⟨0⟩ ∧
    satCast16 ((256 : Int) * 256) = 32767 ∧
    Size.mul ⟨256⟩ ⟨256⟩ ≠ ⟨satCast16 ((256 : Int) * 256)⟩ ∧
    Size.add ⟨32767⟩ ⟨256⟩ = ⟨satCast16 (32767 + 256)⟩ := by
  refine ⟨rfl, ?_, by decide, by decide, by decide, by decide, by decide, rfl⟩
  show (⟨satCast16 (truncQ ((128 : ℚ) * Size.factor))⟩ : Size) = ⟨256⟩
  norm_num [Size.factor, truncQ, satCast16]

/-- C10: `RasterizedGlyph::default()` is the blank sentinel: zero width and
height, zero top/left bearings, zero advance on both axes, and an empty
`Rgb` buffer. -/
theorem rasterizedGlyph_default_blank :
    RasterizedGlyph.default.width = 0 ∧
    RasterizedGlyph.default.height = 0 ∧
    RasterizedGlyph.default.top = 0 ∧
    RasterizedGlyph.default.left = 0 ∧
    RasterizedGlyph.default.advance = (0, 0) ∧
    RasterizedGlyph.default.buffer = BitmapBuffer.rgb [] :=
  ⟨rfl, rfl, rfl, rfl, rfl, rfl⟩

/-- C4: addition saturates at the `i16` bounds: a `Size` holding the maximum
representable value `32767` plus any positive size gives back the maximum
value, and the result is never negative. -/
theorem size_add_saturates (t : Size) (h : inRange16 t.val) (hpos : 0 < t.val) :
    Size.add ⟨32767⟩ t = ⟨32767⟩ ∧ 0 ≤ (Size.add ⟨32767⟩ t).val := by
  obtain ⟨hl, hr⟩ := h
  have hs : satCast16 ((32767 : Int) + t.val) = 32767 := satCast16_high (by omega)
  constructor
  · show (⟨satCast16 ((32767 : Int) + t.val)⟩ : Size) = ⟨32767⟩
    rw [hs]
  · show 0 ≤ satCast16 ((32767 : Int) + t.val)
    rw [hs]
    norm_num

/-- Witness for the C4 theorem at the concrete positive size `Size(1)`. -/
theorem size_add_saturates_witness :
    Size.add ⟨32767⟩ ⟨1⟩ = ⟨32767⟩ ∧ 0 ≤ (Size.add ⟨32767⟩ ⟨1⟩).val :=
  size_add_saturates ⟨1⟩ (by decide) (by decide)

/-- C5: when the doubled input fits in the `i16` range, `Size::new(p)`
stores exactly the toward-zero rounding of `p * 2`, `Size::factor()` is
exactly `2`, and `as_f32_pts` is exactly the stored integer divided by the
factor, with no further rounding. -/
theorem size_new_stores_trunc (p : ℚ) (h1 : -32768 ≤ p * 2) (h2 : p * 2 ≤ 32767) :
    (Size.new p).val = truncQ (p * Size.factor) ∧
    Size.factor = 2 ∧
    Size.as_f32_pts (Size.new p) = ((Size.new p).val : ℚ) / Size.factor := by
  refine ⟨?_, rfl, rfl⟩
  show satCast16 (truncQ (p * Size.factor)) = truncQ (p * Size.factor)
  exact satCast16_of_inRange (truncQ_inRange (p * Size.factor) h1 h2)

/-- Witness for the C5 theorem at the concrete input `p = 3`. -/
theorem size_new_stores_trunc_witness :
    (-32768 : ℚ) ≤ 3 * 2 ∧ (3 : ℚ) * 2 ≤ 32767 ∧
    ((Size.new 3).val = truncQ (3 * Size.factor) ∧
     Size.factor = 2 ∧
     Size.as_f32_pts (Size.new 3) = ((Size.new 3).val : ℚ) / Size.factor) :=
  ⟨by norm_num, by norm_num, size_new_stores_trunc 3 (by norm_num) (by norm_num)⟩

/-- C6: quantization is idempotent: converting any `Size` (whose stored
field is, as in Rust, an `i16` in range) to points and back yields the same
`Size`. -/
theorem size_roundtrip_idempotent (s : Size) (h : inRange16 s.val) :
    Size.new (Size.as_f32_pts s) = s := by
  obtain ⟨v⟩ := s
  show (⟨satCast16 (truncQ (Size.as_f32_pts ⟨v⟩ * Size.factor))⟩ : Size) = ⟨v⟩
  have e1 : Size.as_f32_pts ⟨v⟩ * Size.factor = (v : ℚ) := by
    show (v : ℚ) / Size.factor * Size.factor = (v : ℚ)
    rw [show Size.factor = (2 : ℚ) from rfl]
    ring
  rw [e1, truncQ_intCast, satCast16_of_inRange h]

/-- Witness for the C6 theorem at the concrete size `Size(7)`. -/
theorem size_roundtrip_idempotent_witness :
    Size.new (Size.as_f32_pts ⟨7⟩) = ⟨7⟩ :=
  size_roundtrip_idempotent ⟨7⟩ (by decide)

/-- C2 (counterexample): the round-trip error bound `0.5 / factor()`
(0.25 points) fails at the input `p = 3/8 = 0.375` (exactly representable
in `f32`): the cast rounds `0.75` toward zero to `0`, so
`Size::new(0.375).as_f32_pts() = 0` and the error is `0.375 > 0.25`. -/
theorem size_roundtrip_quarter_bound_fails :
    ¬ |Size.as_f32_pts (Size.new (3 / 8)) - 3 / 8| ≤ 1 / 2 / Size.factor := by
  have h0 : Size.new ((3 : ℚ) / 8) = ⟨0⟩ := by
    show (⟨satCast16 (truncQ ((3 : ℚ) / 8 * Size.factor))⟩ : Size) = ⟨0⟩
    norm_num [Size.factor, truncQ, satCast16]
  rw [h0]
  show ¬ |((0 : Int) : ℚ) / Size.factor - 3 / 8| ≤ 1 / 2 / Size.factor
  rw [show Size.factor = (2 : ℚ) from rfl]
  norm_num [abs_sub_comm, abs_of_nonneg]

/-- C2 (amended): for inputs in the representable range, the round-trip
error of the quantization is strictly below `1 / factor()` — half a point —
rather than the claimed quarter point, because the `as i16` cast truncates
toward zero instead of rounding to nearest. -/
theorem size_roundtrip_half_bound (p : ℚ) (h1 : -16384 ≤ p) (h2 : p ≤ 16383) :
    |Size.as_f32_pts (Size.new p) - p| < 1 / Size.factor := by
  have hq1 : (-32768 : ℚ) ≤ p * 2 := by linarith
  have hq2 : p * 2 ≤ 32767 := by linarith
  have hin : inRange16 (truncQ (p * 2)) := truncQ_inRange (p * 2) hq1 hq2
  have habs : |(truncQ (p * 2) : ℚ) - p * 2| < 1 := abs_truncQ_sub_lt (p * 2)
  show |((satCast16 (truncQ (p * Size.factor)) : Int) : ℚ) / Size.factor - p| <
    1 / Size.factor
  rw [show Size.factor = (2 : ℚ) from rfl, satCast16_of_inRange hin]
  have e : ((truncQ (p * 2) : Int) : ℚ) / 2 - p =
      (((truncQ (p * 2) : Int) : ℚ) - p * 2) / 2 := by ring
  rw [e, abs_div, abs_two]
  linarith

/-- Witness for the amended C2 theorem at the concrete input `p = 3`. -/
theorem size_roundtrip_half_bound_witness :
    (-16384 : ℚ) ≤ 3 ∧ (3 : ℚ) ≤ 16383 ∧
    |Size.as_f32_pts (Size.new 3) - 3| < 1 / Size.factor :=
  ⟨by norm_num, by norm_num, size_roundtrip_half_bound 3 (by norm_num) (by norm_num)⟩

/-- C7 (counterexample): the claim that `s * f` always stores the raw
product fails when the product overflows `i16`: for `s = Size(20000)` and
`f = 1.0` (which converts to `Size(2)`), the raw product `40000` does not
fit in `i16` and the stored value wraps to `-25536` instead. -/
theorem size_mulF32_raw_product_fails :
    inRange16 (20000 : Int) ∧ inRange16 (Size.new 1).val ∧
    (Size.mulF32 ⟨20000⟩ 1).val ≠ (20000 : Int) * (Size.new 1).val := by
  have h1 : Size.new (1 : ℚ) = ⟨2⟩ := by
    show (⟨satCast16 (truncQ ((1 : ℚ) * Size.factor))⟩ : Size) = ⟨2⟩
    norm_num [Size.factor, truncQ, satCast16]
  refine ⟨by decide, ?_, ?_⟩
  · rw [h1]
    decide
  · show (Size.mul ⟨20000⟩ (Size.fromF32 1)).val ≠ (20000 : Int) * (Size.new 1).val
    rw [show Size.fromF32 (1 : ℚ) = Size.new 1 from rfl, h1]
    decide

/-- C7 (amended): as long as the raw product fits in the `i16` range,
multiplying a `Size` by a float through the implicit conversion multiplies
the raw half-point encodings with no rescaling: the result stores
`s.val * Size::new(f).val`, the resulting point value is `factor()` times
the pointwise product of the two point values, and `Size::new(1.0)` has raw
value `2`, so multiplication by `1.0` doubles the raw value instead of
being the identity. -/
theorem size_mulF32_raw_product (s : Size) (f : ℚ)
    (h : inRange16 (s.val * (Size.new f).val)) :
    (Size.mulF32 s f).val = s.val * (Size.new f).val ∧
    Size.as_f32_pts (Size.mulF32 s f) =
      Size.factor * (Size.as_f32_pts s * Size.as_f32_pts (Size.new f)) ∧
    (Size.new 1).val = 2 := by
  have e1 : (Size.mulF32 s f).val = s.val * (Size.new f).val := by
    show wrap16 (s.val * (Size.new f).val) = s.val * (Size.new f).val
    exact wrap16_of_inRange h
  refine ⟨e1, ?_, ?_⟩
  · show ((Size.mulF32 s f).val : ℚ) / Size.factor =
      Size.factor * (((s.val : ℚ)) / Size.factor * (((Size.new f).val : ℚ) / Size.factor))
    rw [e1, show Size.factor = (2 : ℚ) from rfl]
    push_cast
    ring
  · show satCast16 (truncQ ((1 : ℚ) * Size.factor)) = 2
    norm_num [Size.factor, truncQ, satCast16]

/-- Witness for the amended C7 theorem at `s = Size(3)`, `f = 5.0`. -/
theorem size_mulF32_raw_product_witness :
    inRange16 ((Size.mk 3).val * (Size.new 5).val) ∧
    ((Size.mulF32 ⟨3⟩ 5).val = (Size.mk 3).val * (Size.new 5).val ∧
     Size.as_f32_pts (Size.mulF32 ⟨3⟩ 5) =
       Size.factor * (Size.as_f32_pts ⟨3⟩ * Size.as_f32_pts (Size.new 5)) ∧
     (Size.new 1).val = 2) := by
  have h5 : Size.new (5 : ℚ) = ⟨10⟩ := by
    show (⟨satCast16 (truncQ ((5 : ℚ) * Size.factor))⟩ : Size) = ⟨10⟩
    norm_num [Size.factor, truncQ, satCast16]
  have hp : inRange16 ((Size.mk 3).val * (Size.new 5).val) := by
    rw [h5]
    decide
  exact ⟨hp, size_mulF32_raw_product ⟨3⟩ 5 hp⟩

/-- C8: two `FontDesc` values compare equal exactly when both the name and
the style compare equal, and a `Style::Description { slant: Italic, weight:
Bold }` never compares equal to `Style::Specific("Italic Bold")`, whether
as a bare style or inside a `FontDesc` with identical names. -/
theorem fontDesc_eq_iff (a b : FontDesc) :
    (FontDesc.eqb a b = true ↔ a.name = b.name ∧ a.style = b.style) ∧
    Style.eqb (Style.description Slant.italic Weight.bold)
      (Style.specific "Italic Bold") = false ∧
    FontDesc.eqb ⟨a.name, Style.description Slant.italic Weight.bold⟩
      ⟨a.name, Style.specific "Italic Bold"⟩ = false := by
  refine ⟨?_, rfl, ?_⟩
  · show (a.name == b.name && Style.eqb a.style b.style) = true ↔
      a.name = b.name ∧ a.style = b.style
    rw [Bool.and_eq_true, style_eqb_iff, beq_iff_eq]
  · show (a.name == a.name &&
      Style.eqb (Style.description Slant.italic Weight.bold)
        (Style.specific "Italic Bold")) = false
    exact Bool.and_false _

/-- C9: two `GlyphKey` values compare equal exactly when the character, the
font key and the size all match, and changing any single one of the three
fields makes the comparison return `false` unconditionally. -/
theorem glyphKey_eq_iff (a b : GlyphKey) :
    (GlyphKey.eqb a b = true ↔
      a.character = b.character ∧ a.font_key = b.font_key ∧ a.size = b.size) ∧
    (a.character ≠ b.character → GlyphKey.eqb a b = false) ∧
    (a.font_key ≠ b.font_key → GlyphKey.eqb a b = false) ∧
    (a.size ≠ b.size → GlyphKey.eqb a b = false) := by
  obtain ⟨ca, ⟨ta⟩, ⟨sa⟩⟩ := a
  obtain ⟨cb, ⟨tb⟩, ⟨sb⟩⟩ := b
  have hiff : GlyphKey.eqb ⟨ca, ⟨ta⟩, ⟨sa⟩⟩ ⟨cb, ⟨tb⟩, ⟨sb⟩⟩ = true ↔
      ca = cb ∧ FontKey.mk ta = ⟨tb⟩ ∧ Size.mk sa = ⟨sb⟩ := by
    simp [GlyphKey.eqb, FontKey.eqb, Size.eqb, Bool.and_eq_true, beq_iff_eq,
      and_assoc]
  refine ⟨hiff, fun hne => ?_, fun hne => ?_, fun hne => ?_⟩ <;>
    cases heq : GlyphKey.eqb ⟨ca, ⟨ta⟩, ⟨sa⟩⟩ ⟨cb, ⟨tb⟩, ⟨sb⟩⟩
  · rfl
  · exact absurd (hiff.mp heq).1 hne
  · rfl
  · exact absurd (hiff.mp heq).2.1 hne
  · rfl
  · exact absurd (hiff.mp heq).2.2 hne

/-- Witness for the C9 theorem: keys differing in exactly one field — the
character, the font key, or the size — compare unequal. -/
theorem glyphKey_eq_iff_witness :
    GlyphKey.eqb ⟨'a', ⟨0⟩, ⟨10⟩⟩ ⟨'b', ⟨0⟩, ⟨10⟩⟩ = false ∧
    GlyphKey.eqb ⟨'a', ⟨0⟩, ⟨10⟩⟩ ⟨'a', ⟨1⟩, ⟨10⟩⟩ = false ∧
    GlyphKey.eqb ⟨'a', ⟨0⟩, ⟨10⟩⟩ ⟨'a', ⟨0⟩, ⟨11⟩⟩ = false :=
  ⟨(glyphKey_eq_iff _ _).2.1 (by decide),
   (glyphKey_eq_iff _ _).2.2.1 (by decide),
   (glyphKey_eq_iff _ _).2.2.2 (by decide)⟩
